import Mathlib

/-!
Verification of the self-attention demo (`streamlit_app.py`).

The reproducible core of the program consists of:
* the static `EXAMPLES` catalog (lines 54–73),
* `create_simple_heatmap` (lines 75–100), whose computational content is the
  construction of an N×N attention matrix,
* the sentence-rendering loop in `main` (lines 125–135), which assigns each
  word one of three visual classes,
* the `available_words` filter in `main` (line 118).

We embed these shallowly: NumPy float matrices become `List (List ℚ)`
(the program only ever writes the literals 0.1, 0.8, 1.0 and compares
nothing, so exact rationals are a faithful value model), a Python `dict`
literal becomes an association list with unique keys, and the `ValueError`
that `list.index` raises on a missing element becomes an `Except` error.
-/

namespace AttentionDemo

/-- Python `s.lower()`: character-wise lowercasing. All strings the program
lowercases are ASCII, where Python's `str.lower` agrees with character-wise
`Char.toLower`; we map over the character data directly so that the
function reduces in the kernel. -/
def py_lower (s : String) : String := String.mk (s.data.map Char.toLower)

/-- The float literal `0.1` of the source (base attention), as an exact
rational (1/10 in lowest terms, written as a literal so it reduces). -/
def vBase : ℚ := ⟨1, 10, by norm_num, by norm_num [Nat.Coprime]⟩

/-- The float literal `0.8` of the source (attended-cell value), as an exact
rational (8/10 = 4/5 in lowest terms, written as a literal). -/
def vAttend : ℚ := ⟨4, 5, by norm_num, by norm_num [Nat.Coprime]⟩

/-- A Python `dict` mapping a word key to its list of attended target words,
modelled as an association list (the source dict literals have unique keys). -/
abbrev AttentionDict := List (String × List String)

/-- Python `k in d` / `d[k]` on the attention dict: first entry whose key
equals `k`. -/
def dictLookup (d : AttentionDict) (k : String) : Option (List String) :=
  (d.find? (fun p => p.1 == k)).map (fun p => p.2)

/-- Python `d.get(k, dflt)` (line 126 of the source). -/
def dictGetD (d : AttentionDict) (k : String) (dflt : List String) : List String :=
  (dictLookup d k).getD dflt

/-- The keys of the attention dict, in order. -/
def dictKeys (d : AttentionDict) : List String := d.map (fun p => p.1)

/-- One entry of the `EXAMPLES` catalog: a sentence as an ordered word list
plus the hand-authored attention mapping. -/
structure Sample where
  words : List String
  attention : AttentionDict
deriving DecidableEq, Repr

/-- The "Business" example of the catalog (source lines 55–63). -/
def businessSample : Sample where
  words := ["Our", "company", "reported", "strong", "quarterly", "profits",
            "and", "the", "stock", "price", "surged"]
  attention :=
    [("stock", ["company", "profits", "surged"]),
     ("profits", ["company", "quarterly", "strong"]),
     ("surged", ["profits", "stock", "strong"]),
     ("company", ["Our", "profits", "stock"])]

/-- The "Technology" example of the catalog (source lines 64–72). -/
def technologySample : Sample where
  words := ["The", "new", "AI", "model", "processes", "language", "better",
            "than", "previous", "versions"]
  attention :=
    [("model", ["AI", "new", "processes"]),
     ("processes", ["model", "language", "AI"]),
     ("language", ["processes", "model", "better"]),
     ("AI", ["model", "new", "processes"])]

/-- The `EXAMPLES` catalog (source lines 54–73), a name-indexed table. -/
def EXAMPLES : List (String × Sample) :=
  [("Business", businessSample), ("Technology", technologySample)]

/-- The runtime failure Python raises from `list.index` when the element is
absent (a bare `ValueError`, not an application-defined error type). -/
inductive PyError where
  | valueError
deriving DecidableEq, Repr

/-- Python `words.index(x)`: index of the first occurrence, raising
`ValueError` when `x` is absent (source lines 85 and 88). -/
def list_index (l : List String) (x : String) : Except PyError Nat :=
  if x ∈ l then Except.ok (l.indexOf x) else Except.error PyError.valueError

/-- `np.full((n, n), v)` (source line 78): an n×n matrix of a constant. -/
def np_full (n : Nat) (v : ℚ) : List (List ℚ) :=
  List.replicate n (List.replicate n v)

/-- Write value `v` at row `i`, column `j` (`matrix[i][j] = v`). Out-of-range
indices leave the matrix unchanged, which never happens in the program. -/
def setCell (m : List (List ℚ)) (i j : Nat) (v : ℚ) : List (List ℚ) :=
  m.set i ((m.getD i []).set j v)

/-- Read row `i`, column `j` of a matrix (total, defaulting to 0 out of
range; all uses in the development are in range). -/
def getCell (m : List (List ℚ)) (i j : Nat) : ℚ :=
  (m.getD i []).getD j 0

/-- `np.fill_diagonal(matrix, v)` (source line 81): set every diagonal cell. -/
def fill_diagonal (m : List (List ℚ)) (v : ℚ) : List (List ℚ) :=
  (List.range m.length).foldl (fun acc i => setCell acc i i v) m

/-- The body of the target loop (source lines 86–89): for one target word,
write 0.8 at `[selected_idx][words.index(target_word)]` when the target
occurs in `words`, otherwise do nothing. -/
def applyTarget (words : List String) (selected_idx : Nat)
    (m : List (List ℚ)) (target_word : String) : List (List ℚ) :=
  if target_word ∈ words then
    setCell m selected_idx (words.indexOf target_word) vAttend
  else m

/-- The matrix construction of `create_simple_heatmap` (source lines 75–89):
an n×n matrix at baseline 0.1, diagonal 1.0, and — when the lowercased
selected word is a key of the attention dict — 0.8 at the selected word's
row for every attended target present in `words`. `words.index` on a
selected word that is absent from `words` raises, modelled as
`Except.error`. The plotly figure built from the matrix (lines 91–100) is
presentation and is not modelled. -/
def create_simple_heatmap (words : List String) (selected_word : String)
    (attention_dict : AttentionDict) : Except PyError (List (List ℚ)) :=
  let n := words.length
  let matrix := fill_diagonal (np_full n vBase) 1
  match dictLookup attention_dict (py_lower selected_word) with
  | none => Except.ok matrix
  | some targets =>
    match list_index words selected_word with
    | Except.error e => Except.error e
    | Except.ok selected_idx =>
      Except.ok (targets.foldl (applyTarget words selected_idx) matrix)

/-- The matrix `create_simple_heatmap` produces, or `[]` on error; used to
state cell-level properties without an existential over matrices. -/
def heatmapM (words : List String) (selected_word : String)
    (attention_dict : AttentionDict) : List (List ℚ) :=
  ((create_simple_heatmap words selected_word attention_dict).toOption).getD []

/-- The three visual classes of the sentence renderer: the CSS classes
`selected-word`, `attending-word`, and the bare `word-box` (lines 129–134). -/
inductive VisualClass where
  | selected
  | attending
  | neutral
deriving DecidableEq, Repr

/-- The sentence-rendering loop of `main` (source lines 128–135): one
(word, class) token per word, in order; `selected` on exact equality with
the selected word, else `attending` on exact membership in the attended
list, else `neutral`. -/
def renderSentence (words : List String) (selected_word : String)
    (attending_words : List String) : List (String × VisualClass) :=
  words.map (fun word =>
    if word = selected_word then (word, VisualClass.selected)
    else if word ∈ attending_words then (word, VisualClass.attending)
    else (word, VisualClass.neutral))

/-- The selectable-word list of `main` (source line 118): the words of the
current example whose lowercased form is a key of its attention dict. -/
def available_words (words : List String) (attention_dict : AttentionDict) :
    List String :=
  words.filter (fun w => (dictLookup attention_dict (py_lower w)).isSome)

/-- The attended-word list `main` computes for the selected word
(source line 126). -/
def attendingWordsOf (attention_dict : AttentionDict) (selected_word : String) :
    List String :=
  dictGetD attention_dict (py_lower selected_word) []

/-- The cell positions of the selected word's row that the target loop
writes: row = first index of the selected word, column = first index of a
target of its attention entry that occurs in `words`. -/
def attendedCell (E : Sample) (w : String) (i j : Nat) : Prop :=
  i = E.words.indexOf w ∧
  ∃ t ∈ dictGetD E.attention (py_lower w) [], t ∈ E.words ∧ j = E.words.indexOf t

instance (E : Sample) (w : String) (i j : Nat) : Decidable (attendedCell E w i j) := by
  unfold attendedCell; infer_instance

instance exceptDecEq {e a : Type} [DecidableEq e] [DecidableEq a] :
    DecidableEq (Except e a) := fun x y =>
  match x, y with
  | Except.ok v, Except.ok w =>
    if h : v = w then isTrue (by rw [h]) else
      isFalse (fun hc => h (Except.ok.inj hc))
  | Except.ok _, Except.error _ => isFalse (fun hc => Except.noConfusion hc)
  | Except.error _, Except.ok _ => isFalse (fun hc => Except.noConfusion hc)
  | Except.error u, Except.error v =>
    if h : u = v then isTrue (by rw [h]) else
      isFalse (fun hc => h (Except.error.inj hc))

/-- The constant written as `0.1` in the source equals 1/10. -/
theorem vBase_eq : vBase = 1/10 := by
  rw [vBase, Rat.mk'_eq_divInt, Rat.divInt_eq_div]; norm_num

/-- The constant written as `0.8` in the source equals 8/10. -/
theorem vAttend_eq : vAttend = 8/10 := by
  rw [vAttend, Rat.mk'_eq_divInt, Rat.divInt_eq_div]; norm_num

/-- A matrix is n×n: n rows, each (read through the total row accessor) of
length n. -/
def SquareShape (m : List (List ℚ)) (n : Nat) : Prop :=
  m.length = n ∧ ∀ i < n, (m.getD i []).length = n

theorem length_setCell (m : List (List ℚ)) (i j : Nat) (v : ℚ) :
    (setCell m i j v).length = m.length :=
  List.length_set ..

theorem getCell_setCell_same (m : List (List ℚ)) (i j : Nat) (v : ℚ)
    (hi : i < m.length) (hj : j < (m.getD i []).length) :
    getCell (setCell m i j v) i j = v := by
  unfold getCell setCell
  simp only [List.getD_eq_getElem?_getD] at hj ⊢
  rw [List.getElem?_set_eq_of_lt _ hi, Option.getD_some,
    List.getElem?_set_eq_of_lt _ hj, Option.getD_some]

theorem getD_set_of_ne {r : List ℚ} {k j : Nat} (h : k ≠ j) (v d : ℚ) :
    (r.set k v).getD j d = r.getD j d := by
  rw [List.getD_eq_getElem?_getD, List.getElem?_set_ne h, List.getD_eq_getElem?_getD]

theorem getCell_setCell_of_ne (m : List (List ℚ)) {i j k l : Nat} (v : ℚ)
    (h : k ≠ i ∨ l ≠ j) :
    getCell (setCell m k l v) i j = getCell m i j := by
  unfold getCell setCell
  by_cases hk : k = i
  · subst hk
    rcases h with h | h
    · exact absurd rfl h
    · by_cases hlen : k < m.length
      · simp only [List.getD_eq_getElem?_getD]
        rw [List.getElem?_set_eq_of_lt _ hlen, Option.getD_some,
          List.getElem?_set_ne h]
      · rw [List.set_eq_of_length_le (Nat.le_of_not_lt hlen)]
  · simp only [List.getD_eq_getElem?_getD]
    rw [List.getElem?_set_ne hk]

theorem squareShape_setCell {m : List (List ℚ)} {n : Nat}
    (h : SquareShape m n) (i j : Nat) (v : ℚ) :
    SquareShape (setCell m i j v) n := by
  refine ⟨by rw [length_setCell]; exact h.1, fun k hk => ?_⟩
  unfold setCell
  by_cases hik : i = k
  · subst hik
    have hi : i < m.length := h.1 ▸ hk
    rw [List.getD_eq_getElem?_getD, List.getElem?_set_eq_of_lt _ hi,
      Option.getD_some, List.length_set]
    exact h.2 i hk
  · rw [List.getD_eq_getElem?_getD, List.getElem?_set_ne hik,
      ← List.getD_eq_getElem?_getD]
    exact h.2 k hk

theorem squareShape_np_full (n : Nat) (v : ℚ) : SquareShape (np_full n v) n := by
  refine ⟨List.length_replicate .., fun i hi => ?_⟩
  unfold np_full
  rw [List.getD_eq_getElem?_getD, List.getElem?_replicate, if_pos hi,
    Option.getD_some, List.length_replicate]

theorem getCell_np_full {n i j : Nat} (v : ℚ) (hi : i < n) (hj : j < n) :
    getCell (np_full n v) i j = v := by
  unfold getCell np_full
  simp only [List.getD_eq_getElem?_getD]
  rw [List.getElem?_replicate, if_pos hi, Option.getD_some,
    List.getElem?_replicate, if_pos hj, Option.getD_some]

theorem squareShape_foldl_diag (l : List Nat) {m : List (List ℚ)} {n : Nat}
    (h : SquareShape m n) (v : ℚ) :
    SquareShape (l.foldl (fun acc i => setCell acc i i v) m) n := by
  induction l generalizing m with
  | nil => exact h
  | cons k t ih => exact ih (squareShape_setCell h k k v)

theorem getCell_foldl_diag_of_ne (l : List Nat) (m : List (List ℚ))
    {i j : Nat} (hij : i ≠ j) (v : ℚ) :
    getCell (l.foldl (fun acc k => setCell acc k k v) m) i j = getCell m i j := by
  induction l generalizing m with
  | nil => rfl
  | cons k t ih =>
    rw [List.foldl_cons, ih]
    apply getCell_setCell_of_ne
    by_cases hk : k = i
    · exact Or.inr (hk ▸ fun hj => hij (hj ▸ rfl))
    · exact Or.inl hk

theorem getCell_foldl_diag_of_eq (l : List Nat) {m : List (List ℚ)} {n : Nat}
    (h : SquareShape m n) {i : Nat} (hi : i < n) (v : ℚ)
    (hv : getCell m i i = v) :
    getCell (l.foldl (fun acc k => setCell acc k k v) m) i i = v := by
  induction l generalizing m with
  | nil => exact hv
  | cons k t ih =>
    rw [List.foldl_cons]
    refine ih (squareShape_setCell h k k v) ?_
    by_cases hk : k = i
    · subst hk
      exact getCell_setCell_same m k k v (h.1 ▸ hi) ((h.2 k hi).symm ▸ hi)
    · rw [getCell_setCell_of_ne m v (Or.inl hk)]; exact hv

theorem getCell_foldl_diag_mem (l : List Nat) {m : List (List ℚ)} {n : Nat}
    (h : SquareShape m n) {i : Nat} (hi : i < n) (v : ℚ) (hmem : i ∈ l) :
    getCell (l.foldl (fun acc k => setCell acc k k v) m) i i = v := by
  induction l generalizing m with
  | nil => exact absurd hmem (List.not_mem_nil i)
  | cons k t ih =>
    rw [List.foldl_cons]
    by_cases hk : k = i
    · subst hk
      refine getCell_foldl_diag_of_eq t (squareShape_setCell h k k v) hi v ?_
      exact getCell_setCell_same m k k v (h.1 ▸ hi) ((h.2 k hi).symm ▸ hi)
    · rcases List.mem_cons.1 hmem with hik | hit
      · exact absurd hik.symm hk
      · exact ih (squareShape_setCell h k k v) hit

/-- Shape of the matrix `np.full` + `np.fill_diagonal` produce. -/
theorem squareShape_baseMatrix (n : Nat) :
    SquareShape (fill_diagonal (np_full n vBase) 1) n := by
  unfold fill_diagonal
  exact squareShape_foldl_diag _ (squareShape_np_full n vBase) 1

/-- Cell values of the matrix before the target loop runs: 1 on the
diagonal, the 0.1 baseline elsewhere. -/
theorem getCell_baseMatrix {n i j : Nat} (hi : i < n) (hj : j < n) :
    getCell (fill_diagonal (np_full n vBase) 1) i j
      = if i = j then 1 else vBase := by
  unfold fill_diagonal
  rw [(squareShape_np_full n vBase).1]
  by_cases hij : i = j
  · subst hij
    rw [if_pos rfl]
    exact getCell_foldl_diag_mem _ (squareShape_np_full n vBase) hi 1
      (List.mem_range.2 hi)
  · rw [if_neg hij, getCell_foldl_diag_of_ne _ _ hij, getCell_np_full vBase hi hj]

theorem squareShape_applyTarget {m : List (List ℚ)} {n : Nat}
    (h : SquareShape m n) (words : List String) (si : Nat) (t : String) :
    SquareShape (applyTarget words si m t) n := by
  unfold applyTarget
  by_cases ht : t ∈ words
  · rw [if_pos ht]; exact squareShape_setCell h ..
  · rw [if_neg ht]; exact h

theorem squareShape_foldl_applyTarget (l : List String) {m : List (List ℚ)}
    {n : Nat} (h : SquareShape m n) (words : List String) (si : Nat) :
    SquareShape (l.foldl (applyTarget words si) m) n := by
  induction l generalizing m with
  | nil => exact h
  | cons t ts ih => exact ih (squareShape_applyTarget h words si t)

/-- The target loop leaves every cell alone that no in-sentence target of
the traversed list addresses. -/
theorem getCell_foldl_applyTarget_frame (l : List String) (m : List (List ℚ))
    (words : List String) (si i j : Nat)
    (hc : ∀ t ∈ l, t ∈ words → ¬(si = i ∧ words.indexOf t = j)) :
    getCell (l.foldl (applyTarget words si) m) i j = getCell m i j := by
  induction l generalizing m with
  | nil => rfl
  | cons t ts ih =>
    rw [List.foldl_cons, ih _ (fun x hx => hc x (List.mem_cons_of_mem t hx))]
    unfold applyTarget
    by_cases ht : t ∈ words
    · rw [if_pos ht]
      apply getCell_setCell_of_ne
      by_cases hsi : si = i
      · exact Or.inr fun hj => hc t (List.mem_cons_self t ts) ht ⟨hsi, hj⟩
      · exact Or.inl hsi
    · rw [if_neg ht]

/-- Once a cell holds 0.8, the rest of the target loop keeps it at 0.8
(every write of the loop writes 0.8). -/
theorem getCell_foldl_applyTarget_of_eq (l : List String) {m : List (List ℚ)}
    {n : Nat} (h : SquareShape m n) (words : List String) (si i j : Nat)
    (hi : i < n) (hj : j < n) (hv : getCell m i j = vAttend) :
    getCell (l.foldl (applyTarget words si) m) i j = vAttend := by
  induction l generalizing m with
  | nil => exact hv
  | cons t ts ih =>
    rw [List.foldl_cons]
    refine ih (squareShape_applyTarget h words si t) ?_
    unfold applyTarget
    by_cases ht : t ∈ words
    · rw [if_pos ht]
      by_cases hcell : si = i ∧ words.indexOf t = j
      · rw [hcell.1, hcell.2]
        exact getCell_setCell_same m i j vAttend (h.1 ▸ hi) ((h.2 i hi).symm ▸ hj)
      · rcases Decidable.not_and_iff_or_not.1 hcell with hne | hne
        · rw [getCell_setCell_of_ne m vAttend (Or.inl hne)]; exact hv
        · rw [getCell_setCell_of_ne m vAttend (Or.inr hne)]; exact hv
    · rw [if_neg ht]; exact hv

/-- If the traversed target list contains a word `w` of the sentence, then
after the loop the cell at column `words.indexOf w` of row `si` holds 0.8. -/
theorem getCell_foldl_applyTarget_mem (l : List String) {m : List (List ℚ)}
    {n : Nat} (h : SquareShape m n) (words : List String) (si : Nat)
    (w : String) (hw : w ∈ words) (hwl : w ∈ l) (hsi : si < n)
    (hjn : words.indexOf w < n) :
    getCell (l.foldl (applyTarget words si) m) si (words.indexOf w) = vAttend := by
  induction l generalizing m with
  | nil => exact absurd hwl (List.not_mem_nil w)
  | cons t ts ih =>
    rw [List.foldl_cons]
    by_cases htw : t = w
    · subst htw
      refine getCell_foldl_applyTarget_of_eq ts (squareShape_applyTarget h words si t)
        words si si (words.indexOf t) hsi hjn ?_
      unfold applyTarget
      rw [if_pos hw]
      exact getCell_setCell_same m si (words.indexOf t) vAttend (h.1 ▸ hsi)
        ((h.2 si hsi).symm ▸ hjn)
    · rcases List.mem_cons.1 hwl with hc | hc
      · exact absurd hc.symm htw
      · exact ih (squareShape_applyTarget h words si t) hc

/-- A target loop whose list has no word of the sentence does nothing. -/
theorem foldl_applyTarget_of_disjoint (l : List String) (m : List (List ℚ))
    (words : List String) (si : Nat) (h : ∀ t ∈ l, t ∉ words) :
    l.foldl (applyTarget words si) m = m := by
  induction l generalizing m with
  | nil => rfl
  | cons t ts ih =>
    rw [List.foldl_cons, applyTarget, if_neg (h t (List.mem_cons_self t ts)),
      ih _ (fun x hx => h x (List.mem_cons_of_mem t hx))]

/-- A key occurs in the dict exactly when lookup succeeds. -/
theorem mem_dictKeys_iff (d : AttentionDict) (k : String) :
    k ∈ dictKeys d ↔ (dictLookup d k).isSome = true := by
  unfold dictKeys dictLookup
  have h1 : (Option.map (fun p : String × List String => p.2)
      (List.find? (fun p => p.1 == k) d)).isSome
      = (List.find? (fun p => p.1 == k) d).isSome := by
    cases List.find? (fun p => p.1 == k) d <;> rfl
  rw [h1, List.find?_isSome]
  constructor
  · intro hk
    rcases List.mem_map.1 hk with ⟨p, hp, hpk⟩
    exact ⟨p, hp, by rw [hpk]; exact beq_self_eq_true k⟩
  · rintro ⟨p, hp, hpk⟩
    exact List.mem_map.2 ⟨p, hp, eq_of_beq hpk⟩

/-- First-occurrence indices of two distinct members of a list differ. -/
theorem indexOf_ne_of_ne {l : List String} {a b : String}
    (ha : a ∈ l) (hb : b ∈ l) (hab : a ≠ b) :
    l.indexOf a ≠ l.indexOf b := by
  intro hik
  have hga := List.getElem_indexOf (List.indexOf_lt_length.2 ha)
  have hgb := List.getElem_indexOf (List.indexOf_lt_length.2 hb)
  rw [← hga, ← hgb] at hab
  exact hab (by congr 1)

/-- When the lowercased selected word is an attention key and the selected
word occurs in the sentence, the builder succeeds and its matrix is the
target-loop fold over the diagonal-filled base matrix. -/
theorem create_simple_heatmap_ok (words : List String) (w : String)
    (d : AttentionDict) (l : List String)
    (hk : dictLookup d (py_lower w) = some l) (hw : w ∈ words) :
    create_simple_heatmap words w d =
      Except.ok (l.foldl (applyTarget words (words.indexOf w))
        (fill_diagonal (np_full words.length vBase) 1)) := by
  unfold create_simple_heatmap list_index
  rw [hk, if_pos hw]

theorem heatmapM_of_ok (words : List String) (w : String) (d : AttentionDict)
    (m : List (List ℚ))
    (h : create_simple_heatmap words w d = Except.ok m) :
    heatmapM words w d = m := by
  rw [heatmapM, h]; rfl

/-- C1: the specification requires that a selected word absent from `words`
be surfaced as a `WordNotFoundError` input-validation error instead of an
unspecified runtime failure. The code instead lets the bare `ValueError`
of `words.index` propagate (and, when the lowercased word is not an
attention key, raises nothing at all): on the Business example with
selected word "Stock" — whose lowercase form is an attention key but which
is not a member of `words` — the builder fails with the unwrapped
`ValueError`; no `WordNotFoundError` exists anywhere in the program. -/
theorem C1_valueError_propagates :
    create_simple_heatmap businessSample.words "Stock" businessSample.attention
      = Except.error PyError.valueError := by decide

/-- C2 counterexample: the claim that exactly one rendered pair has class
`selected` fails when the selected word occurs twice in the sentence: for
words ["a", "a"] with selected word "a" (a member of words) and no
attended words, both rendered pairs have class `selected`. -/
theorem C2_counterexample :
    "a" ∈ ["a", "a"] ∧
    ¬((renderSentence ["a", "a"] "a" []).countP
        (fun p => p.2 == VisualClass.selected) = 1) := by decide

/-- C2 (amended): the renderer returns exactly len(words) pairs in input
order; a pair has class `selected` exactly when its word equals the
selected word — so the number of `selected` pairs equals the number of
occurrences of the selected word in `words`, which is one when the
selected word occurs exactly once; a pair has class `attending` exactly
when its word differs from the selected word and is a member of the
attended list; a pair has class `neutral` in the remaining cases. -/
theorem C2_renderer_characterization (words : List String) (w : String)
    (att : List String) :
    (renderSentence words w att).length = words.length ∧
    (∀ i, i < words.length →
      Prod.fst ((renderSentence words w att).getD i ("", VisualClass.neutral))
        = words.getD i "") ∧
    (∀ p ∈ renderSentence words w att,
      (p.2 = VisualClass.selected ↔ p.1 = w) ∧
      (p.2 = VisualClass.attending ↔ (p.1 ≠ w ∧ p.1 ∈ att)) ∧
      (p.2 = VisualClass.neutral ↔ (p.1 ≠ w ∧ p.1 ∉ att))) ∧
    (renderSentence words w att).countP (fun p => p.2 == VisualClass.selected)
      = words.count w := by
  refine ⟨List.length_map .., fun i hi => ?_, fun p hp => ?_, ?_⟩
  · unfold renderSentence
    simp only [List.getD_eq_getElem?_getD, List.getElem?_map,
      List.getElem?_eq_getElem hi, Option.map_some', Option.getD_some]
    split_ifs <;> rfl
  · rcases List.mem_map.1 hp with ⟨x, hx, rfl⟩
    by_cases hxw : x = w
    · simp [hxw]
    · by_cases hxa : x ∈ att <;> simp [hxw, hxa]
  · unfold renderSentence
    rw [List.countP_map, List.count_eq_countP]
    refine List.countP_congr fun x hx => ?_
    by_cases hxw : x = w
    · simp [hxw]
    · by_cases hxa : x ∈ att <;> simp [hxw, hxa]

/-- C2 witness: the characterization applied at a concrete rendering. -/
theorem C2_witness :
    Prod.fst ((renderSentence ["alpha", "beta"] "alpha" ["beta"]).getD 0
      ("", VisualClass.neutral)) = (["alpha", "beta"] : List String).getD 0 "" :=
  (C2_renderer_characterization ["alpha", "beta"] "alpha" ["beta"]).2.1 0
    (by decide)

/-- C3: for every catalog example and every word whose lowercase form is an
attention key, the builder succeeds with an N×N matrix (N rows of length
N) whose diagonal cells all equal 1.0, and whose off-diagonal cells not
attended from the selected word's row all equal 0.1. -/
theorem C3_catalog_matrix :
    ∀ E ∈ EXAMPLES, ∀ w ∈ available_words E.2.words E.2.attention,
      create_simple_heatmap E.2.words w E.2.attention
        = Except.ok (heatmapM E.2.words w E.2.attention) ∧
      (heatmapM E.2.words w E.2.attention).length = E.2.words.length ∧
      (∀ i < E.2.words.length,
        ((heatmapM E.2.words w E.2.attention).getD i []).length
          = E.2.words.length) ∧
      (∀ i < E.2.words.length,
        getCell (heatmapM E.2.words w E.2.attention) i i = 1) ∧
      (∀ i < E.2.words.length, ∀ j < E.2.words.length, i ≠ j →
        ¬ attendedCell E.2 w i j →
        getCell (heatmapM E.2.words w E.2.attention) i j = 1/10) := by
  simp only [show (1/10 : ℚ) = vBase from vBase_eq.symm]
  decide

/-- C3 witness: the catalog property applied to the Business example with
selected word "stock", read at the first diagonal cell. -/
theorem C3_witness :
    getCell (heatmapM businessSample.words "stock" businessSample.attention)
      0 0 = 1 := by
  have h := C3_catalog_matrix ("Business", businessSample) (by decide)
    "stock" (by decide)
  exact h.2.2.2.1 0 (by decide)

/-- C4: for every catalog example, selectable word, and attended target
present in the sentence, the built matrix holds 0.8 at
`[indexOf w][indexOf target]`; concretely, for the Business example with
selected word "stock", row 8 is 1.0 at column 8, 0.8 at columns 1, 5 and
10, and 0.1 at every other column. -/
theorem C4_attended_cells :
    (∀ E ∈ EXAMPLES, ∀ w ∈ available_words E.2.words E.2.attention,
      ∀ t ∈ dictGetD E.2.attention (py_lower w) [], t ∈ E.2.words →
        getCell (heatmapM E.2.words w E.2.attention)
          (E.2.words.indexOf w) (E.2.words.indexOf t) = 8/10) ∧
    (getCell (heatmapM businessSample.words "stock" businessSample.attention)
        8 8 = 1 ∧
      getCell (heatmapM businessSample.words "stock" businessSample.attention)
        8 1 = 8/10 ∧
      getCell (heatmapM businessSample.words "stock" businessSample.attention)
        8 5 = 8/10 ∧
      getCell (heatmapM businessSample.words "stock" businessSample.attention)
        8 10 = 8/10 ∧
      ∀ j < 11, j ≠ 8 → j ≠ 1 → j ≠ 5 → j ≠ 10 →
        getCell (heatmapM businessSample.words "stock" businessSample.attention)
          8 j = 1/10) := by
  simp only [show (8/10 : ℚ) = vAttend from vAttend_eq.symm,
    show (1/10 : ℚ) = vBase from vBase_eq.symm]
  exact ⟨by decide, by decide, by decide, by decide, by decide, by decide⟩

/-- C4 witness: the attended-cell property applied to the Business example,
word "stock", target "company". -/
theorem C4_witness :
    getCell (heatmapM businessSample.words "stock" businessSample.attention)
      8 1 = 8/10 := by
  have h := C4_attended_cells.1 ("Business", businessSample) (by decide)
    "stock" (by decide) "company" (by decide) (by decide)
  rw [show businessSample.words.indexOf "stock" = 8 from by decide,
    show businessSample.words.indexOf "company" = 1 from by decide] at h
  exact h

/-- C5: an attended target absent from the sentence is silently skipped:
a builder call whose attention entry for the selected word contains an
unknown target returns exactly (same error or same matrix, cell for cell)
what the call without that target returns. -/
theorem C5_unknown_target_skipped (words : List String) (w t : String)
    (d1 d2 : AttentionDict) (l1 l2 : List String) (htw : t ∉ words)
    (h1 : dictLookup d1 (py_lower w) = some (l1 ++ t :: l2))
    (h2 : dictLookup d2 (py_lower w) = some (l1 ++ l2)) :
    create_simple_heatmap words w d1 = create_simple_heatmap words w d2 := by
  unfold create_simple_heatmap
  rw [h1, h2]
  cases hidx : list_index words w with
  | error e => rfl
  | ok si =>
    show Except.ok _ = Except.ok _
    congr 1
    rw [List.foldl_append, List.foldl_append, List.foldl_cons]
    congr 1
    unfold applyTarget
    rw [if_neg htw]

/-- C5 witness: inserting the unknown target "Banana" into the Business
attention entry for "stock" leaves the builder's output unchanged. -/
theorem C5_witness :
    "Banana" ∉ businessSample.words ∧
    create_simple_heatmap businessSample.words "stock"
        [("stock", ["company", "Banana", "profits", "surged"])]
      = create_simple_heatmap businessSample.words "stock"
          [("stock", ["company", "profits", "surged"])] :=
  ⟨by decide, C5_unknown_target_skipped businessSample.words "stock" "Banana"
    [("stock", ["company", "Banana", "profits", "surged"])]
    [("stock", ["company", "profits", "surged"])]
    ["company"] ["profits", "surged"] (by decide) (by decide) (by decide)⟩

/-- C6: the selectable-word list equals exactly the words of the sentence
whose lowercase form is a key of the attention dict, and in particular
"Our" (whose lowercase form "our" is not a key) is never offered for the
Business example. -/
theorem C6_available_words :
    (∀ E ∈ EXAMPLES, ∀ w : String,
      w ∈ available_words E.2.words E.2.attention ↔
        (w ∈ E.2.words ∧ py_lower w ∈ dictKeys E.2.attention)) ∧
    "Our" ∉ available_words businessSample.words businessSample.attention := by
  constructor
  · intro E _ w
    rw [available_words, List.mem_filter, mem_dictKeys_iff]
  · decide

/-- C6 witness: "stock" is selectable for the Business example. -/
theorem C6_witness :
    "stock" ∈ available_words businessSample.words businessSample.attention :=
  (C6_available_words.1 ("Business", businessSample) (by decide) "stock").2
    ⟨by decide, by decide⟩

/-- The builder returns the plain diagonal-filled base matrix when the
lowercased selected word is not an attention key. -/
theorem create_simple_heatmap_of_none (words : List String) (w : String)
    (d : AttentionDict) (hk : dictLookup d (py_lower w) = none) :
    create_simple_heatmap words w d
      = Except.ok (fill_diagonal (np_full words.length vBase) 1) := by
  unfold create_simple_heatmap
  rw [hk]

/-- C7 counterexample: a one-word example whose word attends to itself does
not produce the matrix [[1.0]] the claim requires — the target loop
overwrites the single diagonal cell with 0.8. -/
theorem C7_counterexample :
    create_simple_heatmap ["hi"] "hi" [("hi", ["hi"])] = Except.ok [[8/10]] ∧
    create_simple_heatmap ["hi"] "hi" [("hi", ["hi"])]
      ≠ Except.ok [[(1 : ℚ)]] := by
  simp only [show (8/10 : ℚ) = vAttend from vAttend_eq.symm]
  exact ⟨by decide, by decide⟩

/-- C7 (amended): for a one-word sentence with its single word selected,
the builder produces the 1×1 matrix [[1.0]] provided the word's attended
list does not contain the word itself (when it does, the cell is 0.8, see
the counterexample); the renderer never produces an attending-class token
for such a sentence. -/
theorem C7_singleton (w : String) (d : AttentionDict)
    (hws : w ∉ dictGetD d (py_lower w) []) :
    create_simple_heatmap [w] w d = Except.ok [[(1 : ℚ)]] ∧
    ∀ p ∈ renderSentence [w] w (dictGetD d (py_lower w) []),
      p.2 ≠ VisualClass.attending := by
  constructor
  · cases hk : dictLookup d (py_lower w) with
    | none =>
      rw [create_simple_heatmap_of_none [w] w d hk]
      show Except.ok (fill_diagonal (np_full 1 vBase) 1) = Except.ok [[(1 : ℚ)]]
      decide
    | some targets =>
      rw [create_simple_heatmap_ok [w] w d targets hk (List.mem_singleton.2 rfl)]
      rw [dictGetD, hk, Option.getD_some] at hws
      rw [foldl_applyTarget_of_disjoint targets _ [w] _
        (fun x hx hxw => hws ((List.mem_singleton.1 hxw) ▸ hx))]
      show Except.ok (fill_diagonal (np_full 1 vBase) 1) = Except.ok [[(1 : ℚ)]]
      decide
  · intro p hp
    rcases List.mem_map.1 hp with ⟨x, hx, rfl⟩
    rw [List.mem_singleton] at hx
    subst hx
    rw [if_pos rfl]
    simp

/-- C7 witness: the amended property at a concrete one-word example. -/
theorem C7_witness :
    ("solo" ∉ dictGetD [] (py_lower "solo") []) ∧
    create_simple_heatmap ["solo"] "solo" [] = Except.ok [[(1 : ℚ)]] :=
  ⟨by decide, (C7_singleton "solo" [] (by decide)).1⟩

/-- C8: builder and renderer are deterministic pure functions: two calls on
identical inputs give identical outputs. (In this functional embedding
this holds by construction; the faithfulness point is that the source
functions read and write no state outside their arguments, so the
embedding as pure functions is exact.) -/
theorem C8_deterministic (words : List String) (w : String)
    (d : AttentionDict) (att : List String) :
    create_simple_heatmap words w d = create_simple_heatmap words w d ∧
    renderSentence words w att = renderSentence words w att :=
  ⟨rfl, rfl⟩

/-- C9: when the selected word is in the sentence, its lowercase form is an
attention key, and its attended list contains the selected word itself,
the diagonal cell of the selected row ends at 0.8 rather than 1.0: the
target-loop writes run after the diagonal fill and overwrite it. -/
theorem C9_self_target_overwrites_diagonal (words : List String) (w : String)
    (d : AttentionDict) (l : List String)
    (hk : dictLookup d (py_lower w) = some l) (hw : w ∈ words) (hwl : w ∈ l) :
    create_simple_heatmap words w d = Except.ok (heatmapM words w d) ∧
    getCell (heatmapM words w d) (words.indexOf w) (words.indexOf w)
      = 8/10 := by
  have hok := create_simple_heatmap_ok words w d l hk hw
  have hM := heatmapM_of_ok words w d _ hok
  refine ⟨by rw [hok, hM], ?_⟩
  rw [hM, ← vAttend_eq]
  exact getCell_foldl_applyTarget_mem l (squareShape_baseMatrix words.length)
    words (words.indexOf w) w hw hwl (List.indexOf_lt_length.2 hw)
    (List.indexOf_lt_length.2 hw)

/-- C9 witness: a one-word example attending to itself ends with 0.8 on the
diagonal. -/
theorem C9_witness :
    getCell (heatmapM ["loop"] "loop" [("loop", ["loop"])])
      (["loop"].indexOf "loop") (["loop"].indexOf "loop") = 8/10 :=
  (C9_self_target_overwrites_diagonal ["loop"] "loop" [("loop", ["loop"])]
    ["loop"] (by decide) (by decide) (by decide)).2

/-- C10: attended-target membership is exact and case-sensitive. A target
`t` of the selected word's attended list that is absent from `words` but
agrees with a sentence word `u` up to letter case (same lowercase form,
different string) is skipped: the cell of `u` in the selected row stays at
the 0.1 baseline (provided `u` is not itself an exact member of the list),
and `u`'s token is rendered `neutral` — even though the attention-key
lookup for the selected word itself goes through lowercasing. -/
theorem C10_case_sensitive (words : List String) (w u t : String)
    (d : AttentionDict) (l : List String)
    (hk : dictLookup d (py_lower w) = some l)
    (hw : w ∈ words) (_ht : t ∈ l) (_htw : t ∉ words)
    (hu : u ∈ words) (hlow : py_lower u = py_lower t) (hut : u ≠ t)
    (hul : u ∉ l) (huw : u ≠ w) :
    getCell (heatmapM words w d) (words.indexOf w) (words.indexOf u)
      = 1/10 ∧
    ∀ p ∈ renderSentence words w l, p.1 = u → p.2 = VisualClass.neutral := by
  constructor
  · rw [heatmapM_of_ok words w d _ (create_simple_heatmap_ok words w d l hk hw)]
    rw [getCell_foldl_applyTarget_frame l _ words _ _ _ ?hc]
    case hc =>
      rintro x hx hxw ⟨-, hcol⟩
      by_cases hxu : x = u
      · exact hul (hxu ▸ hx)
      · exact indexOf_ne_of_ne hxw hu hxu hcol
    rw [getCell_baseMatrix (List.indexOf_lt_length.2 hw)
        (List.indexOf_lt_length.2 hu),
      if_neg (indexOf_ne_of_ne hw hu (fun hwu => huw hwu.symm)), vBase_eq]
  · intro p hp hpu
    rcases List.mem_map.1 hp with ⟨x, hx, rfl⟩
    have hfst : (if x = w then (x, VisualClass.selected)
        else if x ∈ l then (x, VisualClass.attending)
        else (x, VisualClass.neutral)).1 = x := by
      split_ifs <;> rfl
    rw [hfst] at hpu
    subst hpu
    rw [if_neg huw, if_neg hul]

/-- C10 witness: in the Business sentence with selected word "stock" and
an attention list containing "Surged" (capitalised, absent from the
sentence), the cell of the sentence word "surged" stays at baseline. -/
theorem C10_witness :
    getCell (heatmapM businessSample.words "stock"
        [("stock", ["company", "Surged"])])
      (businessSample.words.indexOf "stock")
      (businessSample.words.indexOf "surged") = 1/10 :=
  (C10_case_sensitive businessSample.words "stock" "surged" "Surged"
    [("stock", ["company", "Surged"])] ["company", "Surged"]
    (by decide) (by decide) (by decide) (by decide) (by decide) (by decide)
    (by decide) (by decide) (by decide)).1

end AttentionDemo
